import Mathlib

/-!
Shallow embedding of the Ion difficulty core (`src/pow.cpp`) and proofs about it.

Conventions of the embedding:
* `arith_uint256` values are natural numbers; every arithmetic operation that the
  C++ class performs modulo `2 ^ 256` carries an explicit `% 2 ^ 256`.
* C++ `int`/`int64_t` quantities (heights, timestamps, spacings) are `Int`;
  truncated C++ integer division is `Int.tdiv`.
* `bnNew *= <int64 expr>` resolves to `base_uint::operator*=(uint32_t)` (the
  standard conversion `int64 -> uint32` beats the user-defined conversion to
  `base_uint`), so the multiplier is reduced mod `2 ^ 32`; `bnNew /= <int64 expr>`
  goes through the `base_uint(uint64_t)` constructor, so the divisor is reduced
  mod `2 ^ 64`.
* A null `CBlockIndex*` is `Option.none`; block chains are finite backward lists.
* A function whose C++ body can reach undefined behavior (control flowing off the
  end of a non-void function, a null-pointer dereference, or `base_uint` division
  by zero, which throws) returns `Option Nat`, with `none` marking exactly those
  executions; all other functions are total.
* The ambient singletons `Params().NetworkIDString()` and
  `Params().GenesisBlock().nTime` are carried as fields `network` and
  `genesisTime` of the consensus-parameter record.
-/

inductive Network where
  | MAIN
  | TESTNET
  | REGTEST
  | DEVNET
deriving DecidableEq

/-- Consensus parameters (`Consensus::Params`), restricted to the fields that
`src/pow.cpp` reads.  Target ceilings are the 256-bit magnitudes of the
`uint256` fields. -/
structure Params where
  powLimit : Nat
  posLimit : Nat
  hybridPowLimit : Nat
  nPowTargetSpacing : Int
  nHybridPowTargetSpacing : Int
  nHybridPosTargetSpacing : Int
  nPosTargetSpacing : Int
  nPosTargetSpacingMidas : Int
  nPosTargetTimespanMidas : Int
  POSStartHeight : Int
  POSPOWStartHeight : Int
  DGWDifficultyStartHeight : Int
  MidasStartHeight : Int
  nMinimumDifficultyBlocks : Int
  fPowNoRetargeting : Bool
  fPowAllowMinDifficultyBlocks : Bool
  network : Network
  genesisTime : Int
deriving DecidableEq

/-- A `CBlockIndex` node: height, block time, packed target, the staking type
bit (`(nVersion & BLOCKTYPEBITS_MASK) == BlockTypeBits::BLOCKTYPE_STAKING`), and
the backward `pprev` link (`start` is a block whose `pprev` is null). -/
inductive BlockIndex where
  | start (nHeight nTime : Int) (nBits : Nat) (fStake : Bool)
  | cons (nHeight nTime : Int) (nBits : Nat) (fStake : Bool) (pprev : BlockIndex)
deriving DecidableEq

namespace BlockIndex

def nHeight : BlockIndex → Int
  | .start h _ _ _ => h
  | .cons h _ _ _ _ => h

def GetBlockTime : BlockIndex → Int
  | .start _ t _ _ => t
  | .cons _ t _ _ _ => t

def nBits : BlockIndex → Nat
  | .start _ _ b _ => b
  | .cons _ _ b _ _ => b

def isStaking : BlockIndex → Bool
  | .start _ _ _ s => s
  | .cons _ _ _ s _ => s

def pprev : BlockIndex → Option BlockIndex
  | .start _ _ _ _ => none
  | .cons _ _ _ _ p => some p

/-- The strict ancestors of a block, nearest first. -/
def ancestors : BlockIndex → List BlockIndex
  | .start _ _ _ _ => []
  | .cons _ _ _ _ p => p :: ancestors p

end BlockIndex

/-- `2 ^ 256`, the modulus of `arith_uint256` arithmetic. -/
def two256 : Nat := 2 ^ 256

/-- Kernel-evaluable bit length (the `base_uint::bits()` of a 256-bit value):
`bitsRec fuel n` is the number of significant bits of `n` whenever `n < 2 ^ fuel`. -/
def bitsRec : Nat → Nat → Nat
  | 0, _ => 0
  | fuel + 1, n => if n = 0 then 0 else bitsRec fuel (n / 2) + 1

/-- Bit length of an `arith_uint256` value (`bits()`); valid for `n < 2 ^ 257`,
which covers every 256-bit value. -/
def bits (n : Nat) : Nat := bitsRec 257 n

/-- Modelled from the spec: the compact-target decoder
`decode(packed) -> (magnitude, negative, overflow)` of §4.1 (the
`arith_uint256::SetCompact` used by `pow.cpp`, whose source is outside `src/`).
The packed value is a 1-byte exponent `nSize` and a 3-byte mantissa; if the
exponent is at most 3 the mantissa is shifted right, otherwise left by
`8*(nSize-3)` bits into the 256-bit field (excess bits wrap off); the negative
flag is the mantissa sign bit (bit 23) together with a nonzero mantissa, and the
overflow flag says the unwrapped bit length exceeds 256. -/
def SetCompact (nCompact : Nat) : Nat × Bool × Bool :=
  let nSize := nCompact / 2 ^ 24
  let nWord := nCompact % 2 ^ 23
  let value :=
    if nSize ≤ 3 then nWord / 2 ^ (8 * (3 - nSize))
    else (nWord * 2 ^ (8 * (nSize - 3))) % two256
  (value,
   decide (nWord ≠ 0 ∧ nCompact / 2 ^ 23 % 2 = 1),
   decide (nWord ≠ 0 ∧ 256 < bits nWord + 8 * (nSize - 3)))

/-- Decoded magnitude of a packed target. -/
def decVal (nCompact : Nat) : Nat := (SetCompact nCompact).1

/-- Negative flag of a packed target. -/
def negOf (nCompact : Nat) : Bool := (SetCompact nCompact).2.1

/-- Overflow flag of a packed target. -/
def ovfOf (nCompact : Nat) : Bool := (SetCompact nCompact).2.2

/-- Modelled from the spec: the compact-target encoder `encode(magnitude)` of
§4.1 (`arith_uint256::GetCompact` with `fNegative = false`, source outside
`src/`).  The exponent is the byte length of the value and the mantissa its top
three bytes (through the 64-bit accessor `GetLow64`, then truncated to the
32-bit compact field in the small case); if the mantissa's top bit would read as
a sign bit, the mantissa is shifted down one byte and the exponent bumped. -/
def GetCompact (x : Nat) : Nat :=
  let nSize := (bits x + 7) / 8
  let nCompact :=
    if nSize ≤ 3 then x % 2 ^ 64 * 2 ^ (8 * (3 - nSize)) % 2 ^ 32
    else x / 2 ^ (8 * (nSize - 3)) % 2 ^ 64
  let adjusted :=
    if nCompact / 2 ^ 23 % 2 = 1 then (nCompact / 2 ^ 8, nSize + 1)
    else (nCompact, nSize)
  adjusted.1 + adjusted.2 * 2 ^ 24

/-- `bnNew *= k` where `k` is a C++ `int64_t`: multiplication by `k` converted
to `uint32_t`, in the `2 ^ 256` ring. -/
def mul32 (x : Nat) (k : Int) : Nat := x * (k % (2 ^ 32 : Int)).toNat % two256

/-- `bnNew /= k` where `k` is a C++ `int64_t`: division by `base_uint(uint64_t(k))`. -/
def divU (x : Nat) (k : Int) : Nat := x / (k % (2 ^ 64 : Int)).toNat

/-- `IsProofOfStakeHeight` (`pow.cpp:456`): threshold check, then the literal
historical range table on mainnet. -/
def IsProofOfStakeHeight (nHeight : Int) (params : Params) : Bool :=
  if nHeight ≥ params.POSStartHeight then true
  else if params.network = Network.MAIN then
    if nHeight ≥ 455 ∧ nHeight ≤ 479 then true
    else if nHeight ≥ 481 ∧ nHeight ≤ 489 then true
    else if nHeight ≥ 492 ∧ nHeight ≤ 492 then true
    else if nHeight ≥ 501 ∧ nHeight ≤ 501 then true
    else if nHeight ≥ 691 ∧ nHeight ≤ 691 then true
    else if nHeight ≥ 702 ∧ nHeight ≤ 703 then true
    else if nHeight ≥ 721 ∧ nHeight ≤ 721 then true
    else if nHeight ≥ 806 ∧ nHeight ≤ 811 then true
    else if nHeight ≥ 876 ∧ nHeight ≤ 876 then true
    else if nHeight ≥ 889 ∧ nHeight ≤ 889 then true
    else if nHeight ≥ 907 ∧ nHeight ≤ 907 then true
    else if nHeight ≥ 913 ∧ nHeight ≤ 914 then true
    else if nHeight ≥ 916 ∧ nHeight ≤ 929 then true
    else if nHeight ≥ 931 ∧ nHeight ≤ 931 then true
    else if nHeight ≥ 933 ∧ nHeight ≤ 942 then true
    else if nHeight ≥ 945 ∧ nHeight ≤ 947 then true
    else if nHeight ≥ 949 ∧ nHeight ≤ 960 then true
    else if nHeight ≥ 962 ∧ nHeight ≤ 962 then true
    else if nHeight ≥ 969 ∧ nHeight ≤ 969 then true
    else if nHeight ≥ 991 ∧ nHeight ≤ 991 then true
    else false
  else false

/-- `GetHybridPrevIndex` (`pow.cpp:18`): walk `pprev` links, skipping blocks
whose staking bit differs from `fPos`, returning null as soon as the chain is
exhausted or the next ancestor's height drops below `nMinHeight`.  (The C++
null-`pindex` guard is the `Option`-typed call sites; the recursion itself
always receives a non-null block.) -/
def GetHybridPrevIndex (pindex : BlockIndex) (fPos : Bool) (nMinHeight : Int) :
    Option BlockIndex :=
  match pindex with
  | .start _ _ _ _ => none
  | .cons _ _ _ _ prev =>
    if prev.nHeight < nMinHeight then none
    else if prev.isStaking = fPos then some prev
    else GetHybridPrevIndex prev fPos nMinHeight

/-- The accumulation loop of `HybridPoWDarkGravityWave` (`pow.cpp:65`):
`nCountBlocks` runs from 1 to `nPastBlocks = 24`; `rem = 24 - nCountBlocks` is
the structural fuel.  `none` is the early `return bnPowLimit.GetCompact()`
taken when the hybrid walk runs out of PoW ancestors above the start height. -/
def dgwHybridLoop (params : Params) : Nat → BlockIndex → Nat → Nat →
    Option (Nat × BlockIndex)
  | rem, pindex, bnPastTargetAvg, nCountBlocks =>
    let bnTarget := decVal pindex.nBits
    let bnPastTargetAvg :=
      if nCountBlocks = 1 then bnTarget
      else (bnPastTargetAvg * nCountBlocks % two256 + bnTarget) % two256 /
        (nCountBlocks + 1)
    match rem with
    | 0 => some (bnPastTargetAvg, pindex)
    | rem + 1 =>
      match GetHybridPrevIndex pindex false params.POSPOWStartHeight with
      | none => none
      | some prev =>
        if prev.nHeight ≤ params.POSPOWStartHeight then none
        else dgwHybridLoop params rem prev bnPastTargetAvg (nCountBlocks + 1)

/-- The windowed retarget at the tail of `HybridPoWDarkGravityWave`
(`pow.cpp:62-101`), entered once the min-difficulty short-circuits have not
fired; `none` models the `base_uint` division-by-zero throw when
`24 * nHybridPowTargetSpacing = 0`. -/
def hybridPoWWindow (pindexLast : BlockIndex) (params : Params) : Option Nat :=
  let bnPowLimit := params.hybridPowLimit
  let nPastBlocks : Int := 24
  match dgwHybridLoop params 23 pindexLast 0 1 with
  | none => some (GetCompact bnPowLimit)
  | some (bnPastTargetAvg, pindex) =>
    let bnNew := bnPastTargetAvg
    let nActualTimespan := pindexLast.GetBlockTime - pindex.GetBlockTime
    let nTargetTimespan := nPastBlocks * params.nHybridPowTargetSpacing
    let nActualTimespan :=
      if nActualTimespan < Int.tdiv nTargetTimespan 4 then Int.tdiv nTargetTimespan 4
      else nActualTimespan
    let nActualTimespan :=
      if nActualTimespan > nTargetTimespan * 4 then nTargetTimespan * 4
      else nActualTimespan
    if nTargetTimespan = 0 then none
    else
      let bnNew := mul32 bnNew nActualTimespan
      let bnNew := divU bnNew nTargetTimespan
      let bnNew := if bnNew > bnPowLimit then bnPowLimit else bnNew
      some (GetCompact bnNew)

/-- `HybridPoWDarkGravityWave` (`pow.cpp:29`). -/
def HybridPoWDarkGravityWave (pindexLastIn : BlockIndex) (params : Params) :
    Option Nat :=
  let bnPowLimit := params.hybridPowLimit
  let nPastBlocks : Int := 24
  let pindexLastOpt :=
    if pindexLastIn.isStaking then
      GetHybridPrevIndex pindexLastIn false params.POSPOWStartHeight
    else some pindexLastIn
  match pindexLastOpt with
  | none => some (GetCompact bnPowLimit)
  | some pindexLast =>
    if pindexLast.nHeight < params.POSPOWStartHeight + nPastBlocks then
      some (GetCompact bnPowLimit)
    else if params.fPowAllowMinDifficultyBlocks then
      match GetHybridPrevIndex pindexLast false params.POSPOWStartHeight with
      | none => some (GetCompact bnPowLimit)
      | some pindexPrev =>
        let nPrevBlockTime := pindexPrev.GetBlockTime
        if pindexLast.GetBlockTime > nPrevBlockTime + 2 * 60 * 60 then
          some (GetCompact bnPowLimit)
        else if pindexLast.GetBlockTime > nPrevBlockTime + params.nPowTargetSpacing * 4 then
          let bnNew := decVal pindexLast.nBits * 10 % two256
          let bnNew := if bnNew > bnPowLimit then bnPowLimit else bnNew
          some (GetCompact bnNew)
        else hybridPoWWindow pindexLast params
    else hybridPoWWindow pindexLast params

/-- `HybridPoSPIVXDifficulty` (`pow.cpp:104`).  `none` is the path on which the
C++ control flow reaches the end of the non-void body without a `return`
(`pindexLast->nHeight ≤ POSStartHeight` after all earlier guards): undefined
behavior.  It also marks the division-by-zero throw when
`41 * nHybridPosTargetSpacing = 0`. -/
def HybridPoSPIVXDifficulty (pindexLastIn : BlockIndex) (params : Params) :
    Option Nat :=
  let pindexLastOpt :=
    if pindexLastIn.isStaking then some pindexLastIn
    else GetHybridPrevIndex pindexLastIn true params.POSPOWStartHeight
  match pindexLastOpt with
  | none => some (GetCompact params.posLimit)
  | some pindexLast =>
    if pindexLast.nHeight ≤ params.POSPOWStartHeight then
      some (GetCompact params.posLimit)
    else if params.fPowNoRetargeting then some pindexLast.nBits
    else
      let bnTargetLimit := params.posLimit
      if pindexLast.nHeight > params.POSStartHeight then
        let nTargetSpacing := params.nHybridPosTargetSpacing
        let nInterval : Int := 40
        let nActualSpacing :=
          match GetHybridPrevIndex pindexLast true params.POSPOWStartHeight with
          | some pindexPrev => pindexLast.GetBlockTime - pindexPrev.GetBlockTime
          | none => 0
        let nActualSpacing := if nActualSpacing < 0 then 1 else nActualSpacing
        if (nInterval + 1) * nTargetSpacing = 0 then none
        else
          let bnNew := decVal pindexLast.nBits
          let bnNew := mul32 bnNew ((nInterval - 1) * nTargetSpacing + nActualSpacing + nActualSpacing)
          let bnNew := divU bnNew ((nInterval + 1) * nTargetSpacing)
          let bnNew := if bnNew ≤ 0 ∨ bnNew > bnTargetLimit then bnTargetLimit else bnNew
          some (GetCompact bnNew)
      else none

/-- The ppcoin-style exponential branch shared by the two upper branches of
`GetNextWorkRequiredPivx` (`pow.cpp:168-190` and `195-217`): nominal spacing 60,
interval `2400 / 60`.  `none` is the null `pprev` dereference at a nonzero
height. -/
def pivxPpcoinBranch (pindexLast : BlockIndex) (bnTargetLimit : Nat) : Option Nat :=
  let nTargetSpacing : Int := 60
  let nTargetTimespan : Int := 60 * 40
  let nActualSpacingOpt : Option Int :=
    if pindexLast.nHeight ≠ 0 then
      match pindexLast.pprev with
      | some prev => some (pindexLast.GetBlockTime - prev.GetBlockTime)
      | none => none
    else some 0
  match nActualSpacingOpt with
  | none => none
  | some sp =>
    let nActualSpacing := if sp < 0 then 1 else sp
    let bnNew := decVal pindexLast.nBits
    let nInterval := Int.tdiv nTargetTimespan nTargetSpacing
    let bnNew := mul32 bnNew ((nInterval - 1) * nTargetSpacing + nActualSpacing + nActualSpacing)
    let bnNew := divU bnNew ((nInterval + 1) * nTargetSpacing)
    let bnNew := if bnNew ≤ 0 ∨ bnNew > bnTargetLimit then bnTargetLimit else bnNew
    some (GetCompact bnNew)

/-- The Dark-Gravity-Wave window walk of `GetNextWorkRequiredPivx`
(`pow.cpp:220-246`).  Returns the final `(CountBlocks, PastDifficultyAverage,
nActualTimespan)`.  The running average is a weighted mean over decoded targets;
`LastBlockTime` threads the previous iteration's timestamp. -/
def pivxLoop (BlockReading : BlockIndex) (i : Nat) (CountBlocks : Int)
    (PastDifficultyAveragePrev : Nat) (LastBlockTime nActualTimespan : Int) :
    Int × Nat × Int :=
  if BlockReading.nHeight ≤ 0 ∨ i > 24 then
    (CountBlocks, PastDifficultyAveragePrev, nActualTimespan)
  else
    let CountBlocks := CountBlocks + 1
    let PastDifficultyAverage :=
      if CountBlocks ≤ 24 then
        if CountBlocks = 1 then decVal BlockReading.nBits
        else
          divU ((mul32 PastDifficultyAveragePrev CountBlocks + decVal BlockReading.nBits) % two256)
            (CountBlocks + 1)
      else PastDifficultyAveragePrev
    let nActualTimespan :=
      if LastBlockTime > 0 then nActualTimespan + (LastBlockTime - BlockReading.GetBlockTime)
      else nActualTimespan
    let LastBlockTime := BlockReading.GetBlockTime
    match BlockReading with
    | .start _ _ _ _ => (CountBlocks, PastDifficultyAverage, nActualTimespan)
    | .cons _ _ _ _ prev =>
      pivxLoop prev (i + 1) CountBlocks PastDifficultyAverage LastBlockTime nActualTimespan

/-- `GetNextWorkRequiredPivx` (`pow.cpp:146`): the Averaged-Window (DGW v3) era
function.  `none` marks the null-`pprev` dereference inside the ppcoin branches
and the `base_uint` division-by-zero throw when
`CountBlocks * nPosTargetSpacing = 0`. -/
def GetNextWorkRequiredPivx (pindexLastOpt : Option BlockIndex) (params : Params)
    (fProofOfStake : Bool) : Option Nat :=
  if params.fPowNoRetargeting then pindexLastOpt.map (fun p => p.nBits)
  else
    let PastBlocksMin : Int := 24
    match pindexLastOpt with
    | none => some (GetCompact params.powLimit)
    | some pindexLast =>
      if pindexLast.nHeight = 0 ∨ pindexLast.nHeight < params.DGWDifficultyStartHeight + PastBlocksMin then
        some (GetCompact params.powLimit)
      else
        let bnTargetLimit := if fProofOfStake then params.posLimit else params.powLimit
        if pindexLast.nHeight > params.POSStartHeight then
          pivxPpcoinBranch pindexLast bnTargetLimit
        else if params.network = Network.TESTNET ∧ pindexLast.nHeight + 3 > params.POSStartHeight then
          pivxPpcoinBranch pindexLast params.posLimit
        else
          let wnd := pivxLoop pindexLast 1 0 0 0 0
          let CountBlocks := wnd.1
          let PastDifficultyAverage := wnd.2.1
          let nActualTimespan := wnd.2.2
          let bnNew := PastDifficultyAverage
          let targetTimespan := CountBlocks * params.nPosTargetSpacing
          let nActualTimespan :=
            if nActualTimespan < Int.tdiv targetTimespan 3 then Int.tdiv targetTimespan 3
            else nActualTimespan
          let nActualTimespan :=
            if nActualTimespan > targetTimespan * 3 then targetTimespan * 3
            else nActualTimespan
          if targetTimespan = 0 then none
          else
            let bnNew := mul32 bnNew nActualTimespan
            let bnNew := divU bnNew targetTimespan
            let bnNew := if bnNew > bnTargetLimit then bnTargetLimit else bnNew
            some (GetCompact bnNew)

/-- One step of the `avgRecentTimestamps` walk (`pow.cpp:281-290`): move to the
predecessor and read its time, or subtract the nominal spacing when the chain
is exhausted, in place of a real predecessor. -/
def avgStep (params : Params) (p : Option BlockIndex) (blocktime : Int) :
    Option BlockIndex × Int :=
  match p with
  | some pl =>
    match pl.pprev with
    | some q => (some q, q.GetBlockTime)
    | none => (p, blocktime - params.nPosTargetSpacing)
  | none => (p, blocktime - params.nPosTargetSpacing)

/-- The 17-step timestamp loop of `avgRecentTimestamps` (`pow.cpp:279-296`),
with `rem = 17 - blockoffset` as structural fuel.  Returns the four interval
sums. -/
def avgLoop (params : Params) : Nat → Option BlockIndex → Int → Int → Int → Int → Int →
    Nat → Int × Int × Int × Int
  | 0, _, _, a5, a7, a9, a17, _ => (a5, a7, a9, a17)
  | rem + 1, p, blocktime, a5, a7, a9, a17, blockoffset =>
    let oldblocktime := blocktime
    let next := avgStep params p blocktime
    let a5 := if blockoffset < 5 then a5 + (oldblocktime - next.2) else a5
    let a7 := if blockoffset < 7 then a7 + (oldblocktime - next.2) else a7
    let a9 := if blockoffset < 9 then a9 + (oldblocktime - next.2) else a9
    let a17 := a17 + (oldblocktime - next.2)
    avgLoop params rem next.1 next.2 a5 a7 a9 a17 (blockoffset + 1)

/-- `avgRecentTimestamps` (`pow.cpp:268`): rolling average block intervals over
the last 5, 7, 9 and 17 blocks, padding a too-short chain with the nominal
`nPosTargetSpacing`. -/
def avgRecentTimestamps (pindexLast : Option BlockIndex) (params : Params) :
    Int × Int × Int × Int :=
  let blocktime := match pindexLast with
    | some p => p.GetBlockTime
    | none => 0
  let sums := avgLoop params 17 pindexLast blocktime 0 0 0 0 0
  (Int.tdiv sums.1 5, Int.tdiv sums.2.1 7, Int.tdiv sums.2.2.1 9, Int.tdiv sums.2.2.2 17)

/-- The desired-interval computation of `GetNextWorkRequiredMidas`
(`pow.cpp:333-349`): a weighted blend between the fast (9/10) and slow (11/10)
intervals according to the deviation from the schedule projected from genesis.
`none` marks the C++ division by zero when the blend divisor parameter is 0. -/
def midasIntervalDesired (pindexLast : BlockIndex) (params : Params) : Option Int :=
  let nFastInterval := Int.tdiv (params.nPosTargetSpacingMidas * 9) 10
  let nSlowInterval := Int.tdiv (params.nPosTargetSpacingMidas * 11) 10
  let now := pindexLast.GetBlockTime
  let BlockHeightTime := params.genesisTime + pindexLast.nHeight * params.nPosTargetSpacingMidas
  if now < BlockHeightTime + params.nPosTargetTimespanMidas ∧ now > BlockHeightTime then
    if params.nPosTargetSpacingMidas = 0 then none
    else some (Int.tdiv ((params.nPosTargetTimespanMidas - (now - BlockHeightTime)) * params.nPosTargetSpacingMidas +
      (now - BlockHeightTime) * nFastInterval) params.nPosTargetSpacingMidas)
  else if now + params.nPosTargetTimespanMidas > BlockHeightTime ∧ now < BlockHeightTime then
    if params.nPosTargetTimespanMidas = 0 then none
    else some (Int.tdiv ((params.nPosTargetTimespanMidas - (BlockHeightTime - now)) * params.nPosTargetSpacingMidas +
      (BlockHeightTime - now) * nSlowInterval) params.nPosTargetTimespanMidas)
  else if now < BlockHeightTime then some nSlowInterval
  else some nFastInterval

/-- `GetNextWorkRequiredMidas` (`pow.cpp:304`).  `none` marks the C++ integer
divisions by zero (in the desired-interval blend and in the normal adjustment
when `avgOf17 + 5 * nIntervalDesired = 0`). -/
def GetNextWorkRequiredMidas (pindexLastOpt : Option BlockIndex) (params : Params)
    (fProofOfStake : Bool) : Option Nat :=
  let bnTargetLimit := if fProofOfStake then params.posLimit else params.powLimit
  let nTargetLimit := GetCompact bnTargetLimit
  match pindexLastOpt with
  | none => some nTargetLimit
  | some pindexLast =>
    match midasIntervalDesired pindexLast params with
    | none => none
    | some nIntervalDesired =>
      let avgs := avgRecentTimestamps (some pindexLast) params
      let avgOf5 := avgs.1
      let avgOf7 := avgs.2.1
      let avgOf9 := avgs.2.2.1
      let avgOf17 := avgs.2.2.2
      let toofast := Int.tdiv (nIntervalDesired * 2) 3
      let tooslow := Int.tdiv (nIntervalDesired * 3) 2
      let factorOpt : Option Int :=
        if avgOf5 < toofast ∧ avgOf9 < toofast ∧ avgOf17 < toofast then
          some (Int.tdiv (10000 * 8) 5)
        else if avgOf5 > tooslow ∧ avgOf7 > tooslow ∧ avgOf9 > tooslow then
          some (Int.tdiv (10000 * 5) 8)
        else if ((avgOf5 > nIntervalDesired ∨ avgOf7 > nIntervalDesired) ∧
                  avgOf9 > nIntervalDesired ∧ avgOf17 > nIntervalDesired) ∨
                ((avgOf5 < nIntervalDesired ∨ avgOf7 < nIntervalDesired) ∧
                  avgOf9 < nIntervalDesired ∧ avgOf17 < nIntervalDesired) then
          if avgOf17 + 5 * nIntervalDesired = 0 then none
          else some (Int.tdiv (10000 * (6 * nIntervalDesired)) (avgOf17 + 5 * nIntervalDesired))
        else some 10000
      match factorOpt with
      | none => none
      | some f =>
        let difficultyfactor := if f > 20000 then 20000 else f
        let difficultyfactor := if difficultyfactor < 5000 then 5000 else difficultyfactor
        let bnOld := decVal pindexLast.nBits
        if difficultyfactor = 10000 then some (GetCompact bnOld)
        else
          let bnNew := divU bnOld difficultyfactor
          let bnNew := bnNew * 10000 % two256
          let bnNew := if bnNew > bnTargetLimit then bnTargetLimit else bnNew
          some (GetCompact bnNew)

/-- The same-type backward scan of `GetNextWorkRequiredOrig` (`pow.cpp:421` and
`pow.cpp:426`): step to `pprev` while one exists and the classifier disagrees
with `fProofOfStake`.  Note it can stop on a mismatched block when the chain
runs out. -/
def origSameTypeScan (params : Params) (fProofOfStake : Bool) : BlockIndex → BlockIndex
  | .start h t b s => .start h t b s
  | .cons h t b s prev =>
    if IsProofOfStakeHeight h params ≠ fProofOfStake then
      origSameTypeScan params fProofOfStake prev
    else .cons h t b s prev

/-- The mainnet PoS ceiling literal of `GetNextWorkRequiredOrig` (`pow.cpp:416`). -/
def origMainPosLimit : Nat :=
  0x00000fffffffffffffffffffffffffffffffffffffffffffffffffffffffffff

/-- `GetNextWorkRequiredOrig` (`pow.cpp:410`): the Legacy Exponential era
function (nominal spacing 64, interval 10).  `none` is the null dereference on
the no-retargeting path with a null `pindexLast`. -/
def GetNextWorkRequiredOrig (pindexLastOpt : Option BlockIndex) (params : Params)
    (fProofOfStake : Bool) : Option Nat :=
  if params.fPowNoRetargeting then pindexLastOpt.map (fun p => p.nBits)
  else
    let bnTargetLimit :=
      if fProofOfStake ∧ params.network = Network.MAIN then origMainPosLimit
      else params.powLimit
    match pindexLastOpt with
    | none => some (GetCompact bnTargetLimit)
    | some pindexLast =>
      let pindexPrev := origSameTypeScan params fProofOfStake pindexLast
      match pindexPrev.pprev with
      | none => some (GetCompact bnTargetLimit)
      | some pp =>
        let pindexPrevPrev := origSameTypeScan params fProofOfStake pp
        let nActualSpacing := pindexPrev.GetBlockTime - pindexPrevPrev.GetBlockTime
        let nActualSpacing :=
          if nActualSpacing < 0 then 64
          else if fProofOfStake ∧ nActualSpacing > 64 * 10 then 64 * 10
          else nActualSpacing
        let bnNew := decVal pindexPrev.nBits
        let nInterval : Int := if fProofOfStake then 10 else 10
        let bnNew := mul32 bnNew ((nInterval - 1) * 64 + nActualSpacing + nActualSpacing)
        let bnNew := divU bnNew ((nInterval + 1) * 64)
        let bnNew := if bnNew ≤ 0 ∨ bnNew > bnTargetLimit then bnTargetLimit else bnNew
        some (GetCompact bnNew)

/-- `GetNextWorkRequired` (`pow.cpp:510`): the dispatcher.  The previous block
is non-null (the C++ dereferences it unconditionally). -/
def GetNextWorkRequired (pindexLast : BlockIndex) (params : Params)
    (fHybridPow : Bool) : Option Nat :=
  let nHeight := pindexLast.nHeight + 1
  let fProofOfStake := IsProofOfStakeHeight nHeight params
  if pindexLast.nHeight < params.nMinimumDifficultyBlocks then
    some (GetCompact params.powLimit)
  else if nHeight ≥ params.POSPOWStartHeight then
    if fHybridPow then HybridPoWDarkGravityWave pindexLast params
    else HybridPoSPIVXDifficulty pindexLast params
  else if pindexLast.nHeight ≥ params.DGWDifficultyStartHeight then
    GetNextWorkRequiredPivx (some pindexLast) params fProofOfStake
  else if pindexLast.nHeight ≥ params.MidasStartHeight then
    GetNextWorkRequiredMidas (some pindexLast) params fProofOfStake
  else
    GetNextWorkRequiredOrig (some pindexLast) params fProofOfStake

/-- `CheckProofOfWork` (`pow.cpp:539`): the proof verifier. -/
def CheckProofOfWork (hash : Nat) (nBits : Nat) (params : Params) : Bool :=
  let bnTarget := decVal nBits
  if negOf nBits = true ∨ bnTarget = 0 ∨ ovfOf nBits = true ∨ bnTarget > params.powLimit then
    false
  else if hash > bnTarget then false
  else true

/-! ### Spec-side definitions and concrete inputs used by the claims -/

/-- Spec-side dispatcher written from §4.5 of the spec: the minimum-difficulty
floor first; then the hybrid era, whose threshold is compared against the NEW
block's height (previous height + 1), dispatched on `producing_pow`; then the
averaged-window and the Midas eras, whose thresholds are compared against the
PREVIOUS block's height; Legacy Exponential otherwise.  The block type for the
single-track eras comes from the classifier at the new height. -/
def next_target_spec (previous_block : BlockIndex) (params : Params)
    (producing_pow : Bool) : Option Nat :=
  let new_height := previous_block.nHeight + 1
  let block_type := IsProofOfStakeHeight new_height params
  if previous_block.nHeight < params.nMinimumDifficultyBlocks then
    some (GetCompact params.powLimit)
  else if params.POSPOWStartHeight ≤ new_height then
    if producing_pow then HybridPoWDarkGravityWave previous_block params
    else HybridPoSPIVXDifficulty previous_block params
  else if params.DGWDifficultyStartHeight ≤ previous_block.nHeight then
    GetNextWorkRequiredPivx (some previous_block) params block_type
  else if params.MidasStartHeight ≤ previous_block.nHeight then
    GetNextWorkRequiredMidas (some previous_block) params block_type
  else GetNextWorkRequiredOrig (some previous_block) params block_type

/-- The historical mainnet PoS height table of `IsProofOfStakeHeight`
(`pow.cpp:461-500`), as inclusive `(lo, hi)` pairs. -/
def mainnetPoSRanges : List (Int × Int) :=
  [(455, 479), (481, 489), (492, 492), (501, 501), (691, 691), (702, 703),
   (721, 721), (806, 811), (876, 876), (889, 889), (907, 907), (913, 914),
   (916, 929), (931, 931), (933, 942), (945, 947), (949, 960), (962, 962),
   (969, 969), (991, 991)]

/-- Membership of a height in the historical table. -/
def inMainnetPoSTable (h : Int) : Bool :=
  mainnetPoSRanges.any (fun r => decide (r.1 ≤ h ∧ h ≤ r.2))

/-- Spec-side classifier written from §4.3 of the spec: at or above the PoS
start height, proof of stake; below it, the historical table on the main
network only; proof of work everywhere else. -/
def is_proof_of_stake_spec (h : Int) (params : Params) : Bool :=
  if h ≥ params.POSStartHeight then true
  else if params.network = Network.MAIN then inMainnetPoSTable h
  else false

/-- The block time reached from loop state `(p, blocktime)` after `n` steps of
the `avgRecentTimestamps` walk. -/
def stateTimeAt (params : Params) : Option BlockIndex → Int → Nat → Int
  | _, bt, 0 => bt
  | p, bt, n + 1 =>
    stateTimeAt params (avgStep params p bt).1 (avgStep params p bt).2 n

/-- Padded backward timestamp: the block time `n` steps behind `p`, where each
step past the end of the chain substitutes a synthetic interval of exactly the
nominal spacing `s` (the claim's reading of the `avgRecentTimestamps` padding). -/
def paddedTimeAt (s : Int) : BlockIndex → Nat → Int
  | p, 0 => p.GetBlockTime
  | p, n + 1 =>
    match p with
    | .cons _ _ _ _ q => paddedTimeAt s q n
    | .start _ t _ _ => t - (n + 1) * s

/-- C2's failing input, parameters: hybrid era starts at height 5 but the PoS
era only at height 100, so a hybrid-era PoS retarget hits the missing-return
path. -/
def c2Params : Params :=
  ⟨2 ^ 255, 2 ^ 250, 2 ^ 245, 60, 90, 120, 9, 10, 100, 100, 5, 2000, 1500, 0,
   false, false, Network.TESTNET, 1000⟩

/-- C2's failing input, previous block: a staking block at height 10 (above the
hybrid start 5, at or below the PoS start 100). -/
def c2Prev : BlockIndex := .start 10 1000 486604799 true

/-- C4's counterexample parameters (Midas era active, no flags). -/
def c4Params : Params :=
  ⟨2 ^ 255, 2 ^ 250, 2 ^ 245, 60, 90, 120, 100, 10, 100, 10000, 99999, 2000, 1500, 0,
   false, false, Network.TESTNET, 1000⟩

/-- C4's counterexample previous block: packed target 0, so the Midas emergency
rescale returns a target that decodes to zero. -/
def c4Prev : BlockIndex := .start 0 1000 0 false

/-- C4's witness parameters (well-formed ceilings, retargeting enabled). -/
def c4wParams : Params :=
  ⟨2 ^ 255, 2 ^ 250, 2 ^ 245, 60, 90, 120, 9, 10, 100, 100, 5, 2000, 1500, 0,
   false, false, Network.TESTNET, 1000⟩

/-- C4's witness previous block: a hybrid-era PoW block with a short history. -/
def c4wPrev : BlockIndex := .start 6 100 486604799 false

/-- C5's counterexample parameters: the no-retargeting flag is SET. -/
def c5Params : Params :=
  ⟨2 ^ 255, 2 ^ 250, 2 ^ 245, 60, 90, 120, 100, 10, 100, 10000, 99999, 2000, 1500, 0,
   true, false, Network.TESTNET, 1000⟩

/-- C5's counterexample previous block. -/
def c5Prev : BlockIndex := .start 0 1000 486604799 false

/-- C5's witness parameters: the no-retargeting flag is SET. -/
def c5wParams : Params :=
  ⟨2 ^ 255, 2 ^ 250, 2 ^ 245, 60, 90, 120, 9, 10, 100, 10000, 99999, 2000, 1500, 0,
   true, false, Network.TESTNET, 1000⟩

/-- C5's witness previous block. -/
def c5wPrev : BlockIndex := .start 3 100 1234 false

/-- C7's witness start block: ancestors at heights 4 (PoW), 3 (stake), 2 (PoW). -/
def c7wPrev : BlockIndex :=
  .cons 5 50 7 true (.cons 4 40 7 false (.cons 3 30 7 true (.start 2 20 7 false)))

/-- C8's counterexample parameters: Midas spacing 10 (so the desired interval
resolves to the fast interval 9) and nominal spacing 9 (so a genesis-only chain
averages exactly 9). -/
def c8Params : Params :=
  ⟨2 ^ 255, 2 ^ 250, 2 ^ 245, 60, 90, 120, 9, 10, 100, 10000, 99999, 2000, 1500, 0,
   false, false, Network.TESTNET, 1000⟩

/-- C8's counterexample previous block: its packed target `0x05000001` is NOT in
canonical compact form (it decodes to `0x10000`, which re-encodes as
`0x03010000`). -/
def c8Prev : BlockIndex := .start 0 1000 83886081 false

/-- C8's witness previous block: canonical packed target `0x1b010000`. -/
def c8wPrev : BlockIndex := .start 0 1000 453046272 false

/-- C9's counterexample parameters (legacy era on testnet: every low height is
PoW). -/
def c9Params : Params :=
  ⟨2 ^ 255, 2 ^ 250, 2 ^ 245, 60, 90, 120, 9, 10, 100, 10000, 99999, 2000, 1500, 0,
   false, false, Network.TESTNET, 1000⟩

/-- C9's counterexample chain: spacing between the two most recent blocks is
exactly the nominal 64, and the previous packed target `0x05000001` is not in
canonical form. -/
def c9Prev : BlockIndex :=
  .cons 2 1128 83886081 false (.cons 1 1064 486604799 false (.start 0 1000 486604799 false))

/-- C9's witness chain: equilibrium spacing 64 with a canonical packed target
`0x1b010000`. -/
def c9wPrev : BlockIndex :=
  .cons 2 1128 453046272 false (.cons 1 1064 453046272 false (.start 0 1000 453046272 false))

/-- C10's witness parameters. -/
def c10wParams : Params :=
  ⟨2 ^ 255, 2 ^ 250, 2 ^ 245, 60, 90, 120, 9, 10, 100, 10000, 99999, 2000, 1500, 0,
   false, false, Network.TESTNET, 1000⟩

/-- C10's witness previous block: a genesis-only chain. -/
def c10wPrev : BlockIndex := .start 0 777 5 true

/-! ### Bit-length lemmas -/

theorem bitsRec_le_iff (fuel : Nat) :
    ∀ {n m : Nat}, n < 2 ^ fuel → (bitsRec fuel n ≤ m ↔ n < 2 ^ m) := by
  induction fuel with
  | zero =>
    intro n m h
    have hn : n = 0 := by
      have h1 : (2 : Nat) ^ 0 = 1 := by norm_num
      omega
    subst hn
    simpa [bitsRec] using pow_pos (show (0 : Nat) < 2 by norm_num) m
  | succ fuel ih =>
    intro n m h
    by_cases hn : n = 0
    · subst hn
      simpa [bitsRec] using pow_pos (show (0 : Nat) < 2 by norm_num) m
    · have hp : (2 : Nat) ^ (fuel + 1) = 2 ^ fuel * 2 := by ring
      have h2 : n / 2 < 2 ^ fuel := by omega
      cases m with
      | zero =>
        simp only [bitsRec, hn, if_false, pow_zero]
        omega
      | succ m =>
        simp only [bitsRec, hn, if_false]
        rw [Nat.succ_le_succ_iff, ih h2]
        have hq : (2 : Nat) ^ (m + 1) = 2 ^ m * 2 := by ring
        omega

theorem bits_le_iff {n m : Nat} (hn : n < 2 ^ 257) : bits n ≤ m ↔ n < 2 ^ m :=
  bitsRec_le_iff 257 hn

theorem lt_bits_iff {n m : Nat} (hn : n < 2 ^ 257) : m < bits n ↔ 2 ^ m ≤ n := by
  rw [← not_le, bits_le_iff hn, not_lt]

theorem lt_two_pow_bits {n : Nat} (hn : n < 2 ^ 257) : n < 2 ^ bits n :=
  (bits_le_iff hn).mp le_rfl

theorem bits_pos {n : Nat} (hn : n < 2 ^ 257) (h0 : n ≠ 0) : 1 ≤ bits n := by
  by_contra hcon
  push_neg at hcon
  have := (bits_le_iff hn (m := 0)).mp (by omega)
  simp at this
  omega

theorem two_pow_bits_le {n : Nat} (hn : n < 2 ^ 257) (h0 : n ≠ 0) :
    2 ^ (bits n - 1) ≤ n := by
  have h1 := bits_pos hn h0
  exact (lt_bits_iff hn).mp (by omega)

/-! ### Compact codec lemmas -/

/-- Decoding a packed value assembled from a mantissa below `2 ^ 23` and an
exponent byte. -/
theorem SetCompact_pack (m ns : Nat) (hm : m < 2 ^ 23) :
    SetCompact (m + ns * 2 ^ 24) =
      ((if ns ≤ 3 then m / 2 ^ (8 * (3 - ns)) else m * 2 ^ (8 * (ns - 3)) % two256),
        false,
        decide (m ≠ 0 ∧ 256 < bits m + 8 * (ns - 3))) := by
  have e23 : (2 : Nat) ^ 23 = 8388608 := by norm_num
  have e24 : (2 : Nat) ^ 24 = 16777216 := by norm_num
  have h1 : (m + ns * 2 ^ 24) / 2 ^ 24 = ns := by rw [e24]; rw [e23] at hm; omega
  have h2 : (m + ns * 2 ^ 24) % 2 ^ 23 = m := by rw [e23, e24]; rw [e23] at hm; omega
  have h3 : (m + ns * 2 ^ 24) / 2 ^ 23 % 2 = 0 := by rw [e23, e24]; rw [e23] at hm; omega
  simp only [SetCompact, h1, h2, h3]
  simp

/-- The encoder keeps the top bytes of its input: `decVal (GetCompact x)` is
`x` with some low bits truncated (never more than the bits below the top three
bytes), its negative flag is clear, and it never exceeds `x`. -/
theorem GetCompact_decode (x : Nat) (hx : x < 2 ^ 256) :
    ∃ t : Nat, decVal (GetCompact x) = x / 2 ^ t * 2 ^ t ∧
      (x ≠ 0 → 2 ^ t ≤ x) ∧ negOf (GetCompact x) = false := by
  by_cases hx0 : x = 0
  · subst hx0
    exact ⟨0, by decide, by simp, by decide⟩
  · have hx257 : x < 2 ^ 257 := lt_trans hx (by norm_num)
    have hxlt : x < 2 ^ bits x := lt_two_pow_bits hx257
    have hs1 : 1 ≤ bits x := bits_pos hx257 hx0
    have hxge : 2 ^ (bits x - 1) ≤ x := two_pow_bits_le hx257 hx0
    have hs256 : bits x ≤ 256 := (bits_le_iff hx257).mpr hx
    have hs8 : bits x ≤ 8 * ((bits x + 7) / 8) := by omega
    have h8s : 8 * ((bits x + 7) / 8) ≤ bits x + 7 := by omega
    have hxlt8 : x < 2 ^ (8 * ((bits x + 7) / 8)) :=
      lt_of_lt_of_le hxlt (Nat.pow_le_pow_right (by norm_num) hs8)
    by_cases hA : (bits x + 7) / 8 ≤ 3
    · -- small case: the whole value fits in the three mantissa bytes
      have hx24 : x < 2 ^ 24 :=
        lt_of_lt_of_le hxlt8 (Nat.pow_le_pow_right (by norm_num) (by omega))
      have hx64 : x % 2 ^ 64 = x :=
        Nat.mod_eq_of_lt (lt_of_lt_of_le hx24 (by norm_num))
      have hprod : x * 2 ^ (8 * (3 - (bits x + 7) / 8)) < 2 ^ 24 := by
        calc x * 2 ^ (8 * (3 - (bits x + 7) / 8)) <
            2 ^ (8 * ((bits x + 7) / 8)) * 2 ^ (8 * (3 - (bits x + 7) / 8)) :=
              mul_lt_mul_of_pos_right hxlt8 (pow_pos (by norm_num) _)
          _ = 2 ^ 24 := by rw [← pow_add]; congr 1; omega
      have hmod32 : x * 2 ^ (8 * (3 - (bits x + 7) / 8)) % 2 ^ 32 =
          x * 2 ^ (8 * (3 - (bits x + 7) / 8)) :=
        Nat.mod_eq_of_lt (lt_of_lt_of_le hprod (by norm_num))
      by_cases hadj : x * 2 ^ (8 * (3 - (bits x + 7) / 8)) / 2 ^ 23 % 2 = 1
      · -- mantissa sign bit set: shift down a byte, bump the exponent
        have hcge : 2 ^ 23 ≤ x * 2 ^ (8 * (3 - (bits x + 7) / 8)) := by
          have e23 : (2 : Nat) ^ 23 = 8388608 := by norm_num
          have e24 : (2 : Nat) ^ 24 = 16777216 := by norm_num
          rw [e23] at hadj ⊢
          rw [e24] at hprod
          omega
        have hpack : GetCompact x =
            x * 2 ^ (8 * (3 - (bits x + 7) / 8)) / 2 ^ 8 + ((bits x + 7) / 8 + 1) * 2 ^ 24 := by
          simp only [GetCompact, if_pos hA, hx64, hmod32, if_pos hadj]
        have hmlt : x * 2 ^ (8 * (3 - (bits x + 7) / 8)) / 2 ^ 8 < 2 ^ 23 := by
          have e8 : (2 : Nat) ^ 8 = 256 := by norm_num
          have e23 : (2 : Nat) ^ 23 = 8388608 := by norm_num
          have e24 : (2 : Nat) ^ 24 = 16777216 := by norm_num
          rw [e8, e23]; rw [e24] at hprod; omega
        by_cases hA2 : (bits x + 7) / 8 ≤ 2
        · -- the bumped exponent still decodes by a right shift; exact value
          refine ⟨0, ?_, fun _ => by simpa using Nat.pos_of_ne_zero hx0, ?_⟩
          · rw [hpack, decVal, SetCompact_pack _ _ hmlt, if_pos (by omega)]
            simp only [pow_zero, Nat.div_one, mul_one]
            rw [Nat.div_div_eq_div_mul, ← pow_add]
            rw [show 8 + 8 * (3 - ((bits x + 7) / 8 + 1)) = 8 * (3 - (bits x + 7) / 8) by omega]
            exact Nat.mul_div_cancel x (pow_pos (by norm_num) _)
          · rw [hpack, negOf, SetCompact_pack _ _ hmlt]
        · -- exponent was already 3: the value loses its low byte
          have hA3 : (bits x + 7) / 8 = 3 := by omega
          have hc : x * 2 ^ (8 * (3 - (bits x + 7) / 8)) = x := by
            rw [hA3]; norm_num
          refine ⟨8, ?_, fun _ => ?_, ?_⟩
          · rw [hpack, decVal, SetCompact_pack _ _ hmlt, if_neg (by omega)]
            rw [hc, hA3]
            rw [show 8 * (3 + 1 - 3) = 8 by norm_num]
            exact Nat.mod_eq_of_lt (lt_of_le_of_lt (Nat.div_mul_le_self _ _)
              (by simpa [two256] using hx))
          · rw [hc] at hcge
            exact le_trans (by norm_num) hcge
          · rw [hpack, negOf, SetCompact_pack _ _ hmlt]
      · -- mantissa sign bit clear: exact value
        have hclt : x * 2 ^ (8 * (3 - (bits x + 7) / 8)) < 2 ^ 23 := by
          have e23 : (2 : Nat) ^ 23 = 8388608 := by norm_num
          have e24 : (2 : Nat) ^ 24 = 16777216 := by norm_num
          rw [e23]; rw [e23] at hadj; rw [e24] at hprod; omega
        have hpack : GetCompact x =
            x * 2 ^ (8 * (3 - (bits x + 7) / 8)) + (bits x + 7) / 8 * 2 ^ 24 := by
          simp only [GetCompact, if_pos hA, hx64, hmod32, if_neg hadj]
        refine ⟨0, ?_, fun _ => by simpa using Nat.pos_of_ne_zero hx0, ?_⟩
        · rw [hpack, decVal, SetCompact_pack _ _ hclt, if_pos hA]
          simp only [pow_zero, Nat.div_one, mul_one]
          exact Nat.mul_div_cancel x (pow_pos (by norm_num) _)
        · rw [hpack, negOf, SetCompact_pack _ _ hclt]
    · -- large case: the value is shifted down to its top three bytes
      have hs25 : 25 ≤ bits x := by omega
      have hdlt : x / 2 ^ (8 * ((bits x + 7) / 8 - 3)) < 2 ^ 24 := by
        rw [Nat.div_lt_iff_lt_mul (pow_pos (by norm_num) _), ← pow_add]
        exact lt_of_lt_of_le hxlt8 (Nat.pow_le_pow_right (by norm_num) (by omega))
      have hmod64 : x / 2 ^ (8 * ((bits x + 7) / 8 - 3)) % 2 ^ 64 =
          x / 2 ^ (8 * ((bits x + 7) / 8 - 3)) :=
        Nat.mod_eq_of_lt (lt_of_lt_of_le hdlt (by norm_num))
      by_cases hadj : x / 2 ^ (8 * ((bits x + 7) / 8 - 3)) / 2 ^ 23 % 2 = 1
      · -- sign bit set: one more byte down
        have hcge : 2 ^ 23 ≤ x / 2 ^ (8 * ((bits x + 7) / 8 - 3)) := by
          have e23 : (2 : Nat) ^ 23 = 8388608 := by norm_num
          have e24 : (2 : Nat) ^ 24 = 16777216 := by norm_num
          rw [e23]; rw [e23] at hadj; rw [e24] at hdlt; omega
        have hpack : GetCompact x =
            x / 2 ^ (8 * ((bits x + 7) / 8 - 3)) / 2 ^ 8 + ((bits x + 7) / 8 + 1) * 2 ^ 24 := by
          simp only [GetCompact, if_neg hA, hmod64, if_pos hadj]
        have hmlt : x / 2 ^ (8 * ((bits x + 7) / 8 - 3)) / 2 ^ 8 < 2 ^ 23 := by
          have e8 : (2 : Nat) ^ 8 = 256 := by norm_num
          have e23 : (2 : Nat) ^ 23 = 8388608 := by norm_num
          have e24 : (2 : Nat) ^ 24 = 16777216 := by norm_num
          rw [e8, e23]; rw [e24] at hdlt; omega
        have hdd : x / 2 ^ (8 * ((bits x + 7) / 8 - 3)) / 2 ^ 8 =
            x / 2 ^ (8 * ((bits x + 7) / 8 - 3) + 8) := by
          rw [Nat.div_div_eq_div_mul, ← pow_add]
        refine ⟨8 * ((bits x + 7) / 8 - 3) + 8, ?_, fun _ => ?_, ?_⟩
        · rw [hpack, decVal, SetCompact_pack _ _ hmlt, if_neg (by omega), hdd]
          rw [show 8 * ((bits x + 7) / 8 + 1 - 3) = 8 * ((bits x + 7) / 8 - 3) + 8 by omega]
          exact Nat.mod_eq_of_lt (lt_of_le_of_lt (Nat.div_mul_le_self _ _)
            (by simpa [two256] using hx))
        · have h1 : 2 ^ 23 * 2 ^ (8 * ((bits x + 7) / 8 - 3)) ≤ x :=
            (Nat.le_div_iff_mul_le (pow_pos (by norm_num) _)).mp hcge
          calc (2 : Nat) ^ (8 * ((bits x + 7) / 8 - 3) + 8) ≤
              2 ^ (8 * ((bits x + 7) / 8 - 3) + 23) :=
                Nat.pow_le_pow_right (by norm_num) (by omega)
            _ = 2 ^ 23 * 2 ^ (8 * ((bits x + 7) / 8 - 3)) := by
                rw [← pow_add]; ring_nf
            _ ≤ x := h1
        · rw [hpack, negOf, SetCompact_pack _ _ hmlt]
      · -- sign bit clear
        have hclt : x / 2 ^ (8 * ((bits x + 7) / 8 - 3)) < 2 ^ 23 := by
          have e23 : (2 : Nat) ^ 23 = 8388608 := by norm_num
          have e24 : (2 : Nat) ^ 24 = 16777216 := by norm_num
          rw [e23]; rw [e23] at hadj; rw [e24] at hdlt; omega
        have hpack : GetCompact x =
            x / 2 ^ (8 * ((bits x + 7) / 8 - 3)) + (bits x + 7) / 8 * 2 ^ 24 := by
          simp only [GetCompact, if_neg hA, hmod64, if_neg hadj]
        refine ⟨8 * ((bits x + 7) / 8 - 3), ?_, fun _ => ?_, ?_⟩
        · rw [hpack, decVal, SetCompact_pack _ _ hclt, if_neg hA]
          exact Nat.mod_eq_of_lt (lt_of_le_of_lt (Nat.div_mul_le_self _ _)
            (by simpa [two256] using hx))
        · calc (2 : Nat) ^ (8 * ((bits x + 7) / 8 - 3)) ≤ 2 ^ (bits x - 1) :=
              Nat.pow_le_pow_right (by norm_num) (by omega)
            _ ≤ x := hxge
        · rw [hpack, negOf, SetCompact_pack _ _ hclt]

theorem decVal_lt_two256 (c : Nat) : decVal c < 2 ^ 256 := by
  unfold decVal SetCompact
  dsimp only
  split
  · calc c % 2 ^ 23 / 2 ^ (8 * (3 - c / 2 ^ 24)) ≤ c % 2 ^ 23 := Nat.div_le_self _ _
      _ < 2 ^ 23 := Nat.mod_lt _ (by norm_num)
      _ < 2 ^ 256 := by norm_num
  · have : (0 : Nat) < two256 := by simp [two256]
    simpa [two256] using Nat.mod_lt _ this

theorem decVal_GetCompact_le {y : Nat} (hy : y < 2 ^ 256) : decVal (GetCompact y) ≤ y := by
  obtain ⟨t, h1, _, _⟩ := GetCompact_decode y hy
  rw [h1]
  exact Nat.div_mul_le_self y _

theorem negOf_GetCompact {y : Nat} (hy : y < 2 ^ 256) : negOf (GetCompact y) = false :=
  (GetCompact_decode y hy).choose_spec.2.2

theorem decVal_GetCompact_pos {y : Nat} (hy : y < 2 ^ 256) (h0 : y ≠ 0) :
    0 < decVal (GetCompact y) := by
  obtain ⟨t, h1, h2, _⟩ := GetCompact_decode y hy
  rw [h1]
  have hle := h2 h0
  have ht : 0 < (2 : Nat) ^ t := pow_pos (by norm_num) t
  have : 1 ≤ y / 2 ^ t := (Nat.le_div_iff_mul_le ht).mpr (by omega)
  exact Nat.mul_pos this ht

/-- A value clamped below a ceiling below `2 ^ 256` re-encodes to a target that
decodes at most the ceiling with a clear negative flag. -/
theorem decVal_GetCompact_bound {y L : Nat} (hL : L < 2 ^ 256) (hy : y ≤ L) :
    decVal (GetCompact y) ≤ L ∧ negOf (GetCompact y) = false := by
  have hy256 : y < 2 ^ 256 := lt_of_le_of_lt hy hL
  exact ⟨le_trans (decVal_GetCompact_le hy256) hy, negOf_GetCompact hy256⟩

/-! ### Claim theorems -/

/-- C1: the dispatcher `GetNextWorkRequired` resolves the active algorithm in
the order (a) minimum-difficulty floor, (b) hybrid era by `producing_pow`,
(c) averaged-window era with the classifier-resolved type, (d) Midas era,
(e) Legacy Exponential; each era threshold is compared against the previous
block's height except the hybrid-era threshold, which is compared against the
new block's height (previous height + 1) — as captured verbatim by the
spec-side dispatcher `next_target_spec`. -/
theorem C1_dispatch_order :
    ∀ (pindexLast : BlockIndex) (params : Params) (fHybridPow : Bool),
      GetNextWorkRequired pindexLast params fHybridPow =
        next_target_spec pindexLast params fHybridPow := by
  intro pindexLast params fHybridPow
  rfl

/-- C2: the claim asserts every function of the core is total on era-reachable
inputs, including a hybrid-era previous block whose height is at or below the
PoS start height; but on exactly such an input (`c2Prev`, a staking block at
height 10 with hybrid start 5 and PoS start 100) the C++ control flow of
`HybridPoSPIVXDifficulty` reaches the end of the non-void function body without
a return — undefined behavior, `none` in this embedding — and the dispatcher
inherits it. -/
theorem C2_hybrid_pos_fallthrough :
    GetNextWorkRequired c2Prev c2Params false = none ∧
    HybridPoSPIVXDifficulty c2Prev c2Params = none ∧
    c2Params.POSPOWStartHeight < c2Prev.nHeight ∧
    c2Prev.nHeight ≤ c2Params.POSStartHeight := by
  refine ⟨by decide, by decide, by decide, by decide⟩

/-- C3: the classifier returns true at or above the PoS start height; below it,
it consults the literal historical range table (`mainnetPoSRanges`, reproduced
verbatim from the source) exactly on the main network and returns false on
every other network — the code equals the spec-side classifier pointwise. -/
theorem C3_classifier_table :
    ∀ (params : Params) (h : Int),
      IsProofOfStakeHeight h params = is_proof_of_stake_spec h params := by
  intro params h
  unfold IsProofOfStakeHeight is_proof_of_stake_spec inMainnetPoSTable mainnetPoSRanges
  by_cases h0 : h ≥ params.POSStartHeight
  · simp [h0]
  · rw [if_neg h0, if_neg h0]
    by_cases hnet : params.network = Network.MAIN
    · rw [if_pos hnet, if_pos hnet]
      by_cases hc1 : h ≥ 455 ∧ h ≤ 479
      · simp [hc1]
      by_cases hc2 : h ≥ 481 ∧ h ≤ 489
      · simp [hc1, hc2]
      by_cases hc3 : h ≥ 492 ∧ h ≤ 492
      · simp [hc1, hc2, hc3]
      by_cases hc4 : h ≥ 501 ∧ h ≤ 501
      · simp [hc1, hc2, hc3, hc4]
      by_cases hc5 : h ≥ 691 ∧ h ≤ 691
      · simp [hc1, hc2, hc3, hc4, hc5]
      by_cases hc6 : h ≥ 702 ∧ h ≤ 703
      · simp [hc1, hc2, hc3, hc4, hc5, hc6]
      by_cases hc7 : h ≥ 721 ∧ h ≤ 721
      · simp [hc1, hc2, hc3, hc4, hc5, hc6, hc7]
      by_cases hc8 : h ≥ 806 ∧ h ≤ 811
      · simp [hc1, hc2, hc3, hc4, hc5, hc6, hc7, hc8]
      by_cases hc9 : h ≥ 876 ∧ h ≤ 876
      · simp [hc1, hc2, hc3, hc4, hc5, hc6, hc7, hc8, hc9]
      by_cases hc10 : h ≥ 889 ∧ h ≤ 889
      · simp [hc1, hc2, hc3, hc4, hc5, hc6, hc7, hc8, hc9, hc10]
      by_cases hc11 : h ≥ 907 ∧ h ≤ 907
      · simp [hc1, hc2, hc3, hc4, hc5, hc6, hc7, hc8, hc9, hc10, hc11]
      by_cases hc12 : h ≥ 913 ∧ h ≤ 914
      · simp [hc1, hc2, hc3, hc4, hc5, hc6, hc7, hc8, hc9, hc10, hc11, hc12]
      by_cases hc13 : h ≥ 916 ∧ h ≤ 929
      · simp [hc1, hc2, hc3, hc4, hc5, hc6, hc7, hc8, hc9, hc10, hc11, hc12, hc13]
      by_cases hc14 : h ≥ 931 ∧ h ≤ 931
      · simp [hc1, hc2, hc3, hc4, hc5, hc6, hc7, hc8, hc9, hc10, hc11, hc12, hc13, hc14]
      by_cases hc15 : h ≥ 933 ∧ h ≤ 942
      · simp [hc1, hc2, hc3, hc4, hc5, hc6, hc7, hc8, hc9, hc10, hc11, hc12, hc13, hc14, hc15]
      by_cases hc16 : h ≥ 945 ∧ h ≤ 947
      · simp [hc1, hc2, hc3, hc4, hc5, hc6, hc7, hc8, hc9, hc10, hc11, hc12, hc13, hc14, hc15, hc16]
      by_cases hc17 : h ≥ 949 ∧ h ≤ 960
      · simp [hc1, hc2, hc3, hc4, hc5, hc6, hc7, hc8, hc9, hc10, hc11, hc12, hc13, hc14, hc15, hc16, hc17]
      by_cases hc18 : h ≥ 962 ∧ h ≤ 962
      · simp [hc1, hc2, hc3, hc4, hc5, hc6, hc7, hc8, hc9, hc10, hc11, hc12, hc13, hc14, hc15, hc16, hc17, hc18]
      by_cases hc19 : h ≥ 969 ∧ h ≤ 969
      · simp [hc1, hc2, hc3, hc4, hc5, hc6, hc7, hc8, hc9, hc10, hc11, hc12, hc13, hc14, hc15, hc16, hc17, hc18, hc19]
      by_cases hc20 : h ≥ 991 ∧ h ≤ 991
      · simp [hc1, hc2, hc3, hc4, hc5, hc6, hc7, hc8, hc9, hc10, hc11, hc12, hc13, hc14, hc15, hc16, hc17, hc18, hc19, hc20]
      simp [hc1, hc2, hc3, hc4, hc5, hc6, hc7, hc8, hc9, hc10, hc11, hc12, hc13, hc14, hc15, hc16, hc17, hc18, hc19, hc20]
      omega
    · rw [if_neg hnet, if_neg hnet]

/-- C6: the proof verifier returns false whenever the decoded target is
negative, zero, overflowing, or above the absolute PoW ceiling, regardless of
the hash; otherwise it returns true exactly when the hash is at most the
decoded target (so equality passes). -/
theorem C6_check_proof_of_work :
    ∀ (hash nBits : Nat) (params : Params),
      CheckProofOfWork hash nBits params = true ↔
        (negOf nBits = false ∧ decVal nBits ≠ 0 ∧ ovfOf nBits = false ∧
          decVal nBits ≤ params.powLimit ∧ hash ≤ decVal nBits) := by
  intro hash nBits params
  unfold CheckProofOfWork
  dsimp only
  split_ifs with h1 h2 <;> constructor <;> intro hh
  · cases hh
  · rcases hh with ⟨a, b, c, d, e⟩
    rcases h1 with h1 | h1 | h1 | h1 <;> simp_all <;> omega
  · cases hh
  · rcases hh with ⟨a, b, c, d, e⟩
    omega
  · push_neg at h1
    rcases h1 with ⟨a, b, c, d⟩
    refine ⟨?_, b, ?_, by omega, by omega⟩
    · cases hne : negOf nBits
      · rfl
      · exact absurd hne a
    · cases hne : ovfOf nBits
      · rfl
      · exact absurd hne c
  · rfl

theorem GetHybridPrevIndex_eq_find (fPos : Bool) (nMinHeight : Int) :
    ∀ p : BlockIndex,
      GetHybridPrevIndex p fPos nMinHeight =
        (p.ancestors.takeWhile (fun b => decide (nMinHeight ≤ b.nHeight))).find?
          (fun b => b.isStaking == fPos) := by
  intro p
  induction p with
  | start h t b s => rfl
  | cons h t b s prev ih =>
    rw [GetHybridPrevIndex]
    by_cases hlt : prev.nHeight < nMinHeight
    · rw [if_pos hlt]
      have hd : decide (nMinHeight ≤ prev.nHeight) = false := by
        simp
        omega
      simp [BlockIndex.ancestors, List.takeWhile_cons, hd]
    · rw [if_neg hlt]
      have hd : decide (nMinHeight ≤ prev.nHeight) = true := by
        simp
        omega
      have htw : (BlockIndex.ancestors (.cons h t b s prev)).takeWhile
            (fun b => decide (nMinHeight ≤ b.nHeight)) =
          prev :: prev.ancestors.takeWhile (fun b => decide (nMinHeight ≤ b.nHeight)) := by
        simp [BlockIndex.ancestors, List.takeWhile_cons, hd]
      rw [htw]
      by_cases hst : prev.isStaking = fPos
      · rw [if_pos hst]
        rw [List.find?_cons_of_pos _ (by simp [hst])]
      · rw [if_neg hst]
        rw [List.find?_cons_of_neg _ (by simp [hst]), ih]

/-- C7: the hybrid walker is a total function of the finite chain, equal to the
first type-matching block in the longest ancestor prefix whose heights stay at
or above `nMinHeight` (it returns none as soon as the chain is exhausted or the
walk would pass a block below `nMinHeight`); in particular, when every
type-matching strict ancestor sits below `nMinHeight` it returns none. -/
theorem C7_hybrid_walker :
    ∀ (p : BlockIndex) (fPos : Bool) (nMinHeight : Int),
      GetHybridPrevIndex p fPos nMinHeight =
        (p.ancestors.takeWhile (fun b => decide (nMinHeight ≤ b.nHeight))).find?
          (fun b => b.isStaking == fPos) ∧
      ((∀ b ∈ p.ancestors, b.isStaking = fPos → b.nHeight < nMinHeight) →
        GetHybridPrevIndex p fPos nMinHeight = none) := by
  intro p fPos nMinHeight
  refine ⟨GetHybridPrevIndex_eq_find fPos nMinHeight p, fun hall => ?_⟩
  rw [GetHybridPrevIndex_eq_find fPos nMinHeight p]
  apply List.find?_eq_none.mpr
  intro x hx
  have hmem : x ∈ p.ancestors := List.takeWhile_subset _ hx
  have hkeep : nMinHeight ≤ x.nHeight := by
    have := List.mem_takeWhile_imp hx
    simpa using this
  simp only [beq_iff_eq]
  intro hst
  have := hall x hmem hst
  omega

/-- C7 witness: on a concrete chain whose only staking ancestor sits at height
3, a minimum height of 4 forces the walker to return none. -/
theorem C7_hybrid_walker_witness :
    GetHybridPrevIndex c7wPrev true 4 = none :=
  (C7_hybrid_walker c7wPrev true 4).2 (by decide)

theorem stateTimeAt_succ (params : Params) (p : Option BlockIndex) (bt : Int) (n : Nat) :
    stateTimeAt params p bt (n + 1) =
      stateTimeAt params (avgStep params p bt).1 (avgStep params p bt).2 n := rfl

/-- One telescoping step of a capped interval sum in the timestamp loop. -/
theorem avgLoop_telescope (params : Params) (p : Option BlockIndex) (bt a : Int)
    (off cap : Nat) :
    (if off < cap then a + (bt - (avgStep params p bt).2) else a) +
      (if off + 1 < cap then
        (avgStep params p bt).2 -
          stateTimeAt params (avgStep params p bt).1 (avgStep params p bt).2 (cap - (off + 1))
      else 0) =
    a + (if off < cap then bt - stateTimeAt params p bt (cap - off) else 0) := by
  by_cases h1 : off + 1 < cap
  · have h0 : off < cap := by omega
    rw [if_pos h0, if_pos h1, if_pos h0,
      show cap - off = (cap - (off + 1)) + 1 from by omega, stateTimeAt_succ]
    ring
  · by_cases h0 : off < cap
    · have hoe : cap - off = 1 := by omega
      rw [if_pos h0, if_neg h1, if_pos h0, hoe, stateTimeAt_succ]
      show _ = a + (bt - stateTimeAt params _ _ 0)
      rw [show stateTimeAt params (avgStep params p bt).1 (avgStep params p bt).2 0 =
        (avgStep params p bt).2 from rfl]
      ring
    · rw [if_neg h0, if_neg h1, if_neg h0]

/-- The timestamp loop computes telescoped capped interval sums: each capped
accumulator gains the difference between the current block time and the walk's
block time at the cap. -/
theorem avgLoop_spec (params : Params) :
    ∀ (rem : Nat) (p : Option BlockIndex) (bt a5 a7 a9 a17 : Int) (off : Nat),
      off + rem = 17 →
      avgLoop params rem p bt a5 a7 a9 a17 off =
        (a5 + (if off < 5 then bt - stateTimeAt params p bt (5 - off) else 0),
         a7 + (if off < 7 then bt - stateTimeAt params p bt (7 - off) else 0),
         a9 + (if off < 9 then bt - stateTimeAt params p bt (9 - off) else 0),
         a17 + (if off < 17 then bt - stateTimeAt params p bt (17 - off) else 0)) := by
  intro rem
  induction rem with
  | zero =>
    intro p bt a5 a7 a9 a17 off hoff
    have h17 : off = 17 := by omega
    subst h17
    simp [avgLoop]
  | succ rem ih =>
    intro p bt a5 a7 a9 a17 off hoff
    have hoff17 : off < 17 := by omega
    rw [avgLoop]
    rw [ih (avgStep params p bt).1 (avgStep params p bt).2 _ _ _ _ (off + 1) (by omega)]
    refine Prod.ext ?_ (Prod.ext ?_ (Prod.ext ?_ ?_)) <;> dsimp only
    · exact avgLoop_telescope params p bt a5 off 5
    · exact avgLoop_telescope params p bt a7 off 7
    · exact avgLoop_telescope params p bt a9 off 9
    · have h17 := avgLoop_telescope params p bt a17 off 17
      simp only [if_pos hoff17] at h17 ⊢
      exact h17

theorem stateTimeAt_start (params : Params) (h t : Int) (b : Nat) (s : Bool) :
    ∀ (n : Nat) (bt : Int),
      stateTimeAt params (some (.start h t b s)) bt n =
        bt - n * params.nPosTargetSpacing := by
  intro n
  induction n with
  | zero =>
    intro bt
    simp [stateTimeAt]
  | succ n ih =>
    intro bt
    rw [stateTimeAt_succ]
    rw [show avgStep params (some (.start h t b s)) bt =
      (some (.start h t b s), bt - params.nPosTargetSpacing) from rfl]
    rw [ih]
    push_cast
    ring

theorem stateTimeAt_some (params : Params) :
    ∀ (n : Nat) (p : BlockIndex),
      stateTimeAt params (some p) p.GetBlockTime n =
        paddedTimeAt params.nPosTargetSpacing p n := by
  intro n
  induction n with
  | zero =>
    intro p
    cases p <;> rfl
  | succ n ih =>
    intro p
    cases p with
    | start h t b s =>
      rw [stateTimeAt_start]
      rfl
    | cons h t b s prev =>
      rw [stateTimeAt_succ]
      rw [show avgStep params (some (.cons h t b s prev))
        (BlockIndex.GetBlockTime (.cons h t b s prev)) =
          (some prev, prev.GetBlockTime) from rfl]
      exact ih prev

/-- C10: the four `avgRecentTimestamps` sums telescope to the difference
between the previous block's time and the padded backward timestamp at depths
5, 7, 9 and 17, where each step past the end of the chain substitutes exactly
the nominal `nPosTargetSpacing`; hence on a chain consisting of only the
genesis block all four averages equal that nominal spacing exactly. -/
theorem C10_avg_padding :
    ∀ (params : Params) (p : BlockIndex),
      avgRecentTimestamps (some p) params =
        (Int.tdiv (p.GetBlockTime - paddedTimeAt params.nPosTargetSpacing p 5) 5,
         Int.tdiv (p.GetBlockTime - paddedTimeAt params.nPosTargetSpacing p 7) 7,
         Int.tdiv (p.GetBlockTime - paddedTimeAt params.nPosTargetSpacing p 9) 9,
         Int.tdiv (p.GetBlockTime - paddedTimeAt params.nPosTargetSpacing p 17) 17) ∧
      (p.pprev = none →
        avgRecentTimestamps (some p) params =
          (params.nPosTargetSpacing, params.nPosTargetSpacing,
           params.nPosTargetSpacing, params.nPosTargetSpacing)) := by
  intro params p
  have hmain : avgRecentTimestamps (some p) params =
      (Int.tdiv (p.GetBlockTime - paddedTimeAt params.nPosTargetSpacing p 5) 5,
       Int.tdiv (p.GetBlockTime - paddedTimeAt params.nPosTargetSpacing p 7) 7,
       Int.tdiv (p.GetBlockTime - paddedTimeAt params.nPosTargetSpacing p 9) 9,
       Int.tdiv (p.GetBlockTime - paddedTimeAt params.nPosTargetSpacing p 17) 17) := by
    unfold avgRecentTimestamps
    dsimp only
    rw [avgLoop_spec params 17 (some p) p.GetBlockTime 0 0 0 0 0 (by omega)]
    norm_num [stateTimeAt_some]
  refine ⟨hmain, fun hpp => ?_⟩
  rw [hmain]
  cases p with
  | cons h t b s prev => simp [BlockIndex.pprev] at hpp
  | start h t b s =>
    rw [show paddedTimeAt params.nPosTargetSpacing (.start h t b s) 5 =
        t - 5 * params.nPosTargetSpacing from rfl,
      show paddedTimeAt params.nPosTargetSpacing (.start h t b s) 7 =
        t - 7 * params.nPosTargetSpacing from rfl,
      show paddedTimeAt params.nPosTargetSpacing (.start h t b s) 9 =
        t - 9 * params.nPosTargetSpacing from rfl,
      show paddedTimeAt params.nPosTargetSpacing (.start h t b s) 17 =
        t - 17 * params.nPosTargetSpacing from rfl,
      show BlockIndex.GetBlockTime (.start h t b s) = t from rfl]
    rw [show t - (t - 5 * params.nPosTargetSpacing) = 5 * params.nPosTargetSpacing from by ring,
      show t - (t - 7 * params.nPosTargetSpacing) = 7 * params.nPosTargetSpacing from by ring,
      show t - (t - 9 * params.nPosTargetSpacing) = 9 * params.nPosTargetSpacing from by ring,
      show t - (t - 17 * params.nPosTargetSpacing) = 17 * params.nPosTargetSpacing from by ring]
    rw [Int.mul_tdiv_cancel_left _ (by norm_num), Int.mul_tdiv_cancel_left _ (by norm_num),
      Int.mul_tdiv_cancel_left _ (by norm_num), Int.mul_tdiv_cancel_left _ (by norm_num)]

/-- C10 witness: on a concrete genesis-only chain with nominal spacing 9, all
four averages are exactly 9. -/
theorem C10_avg_padding_witness :
    avgRecentTimestamps (some c10wPrev) c10wParams = (9, 9, 9, 9) := by
  exact (C10_avg_padding c10wParams c10wPrev).2 rfl

/-- C8 counterexample: at `c8Prev`/`c8Params` all four rolling averages equal
the desired interval (9) and the difficulty factor is neutral, but the function
returns `0x03010000` — the decode/re-encode normalization of the previous
packed target `0x05000001` — not the original packed value, because the no-op
path returns `bnOld.GetCompact()` after `bnOld.SetCompact(nBits)`. -/
theorem C8_counterexample_noop_reencodes :
    midasIntervalDesired c8Prev c8Params = some 9 ∧
    avgRecentTimestamps (some c8Prev) c8Params = (9, 9, 9, 9) ∧
    GetNextWorkRequiredMidas (some c8Prev) c8Params false = some 50397184 ∧
    c8Prev.nBits = 83886081 ∧
    GetNextWorkRequiredMidas (some c8Prev) c8Params false ≠ some c8Prev.nBits := by
  exact ⟨by decide, by decide, by decide, by decide, by decide⟩

/-- C8 (amended): when all four rolling averages are exactly equal to the
(nonnegative) desired interval, the multiplicative difficulty factor is exactly
neutral and Midas returns the previous block's target re-encoded through the
compact codec — which is the original packed value whenever that value is in
canonical compact form. -/
theorem C8_midas_neutral (p : BlockIndex) (params : Params) (fPos : Bool) (D : Int)
    (hD : midasIntervalDesired p params = some D) (hD0 : 0 ≤ D)
    (havg : avgRecentTimestamps (some p) params = (D, D, D, D)) :
    GetNextWorkRequiredMidas (some p) params fPos = some (GetCompact (decVal p.nBits)) ∧
    (GetCompact (decVal p.nBits) = p.nBits →
      GetNextWorkRequiredMidas (some p) params fPos = some p.nBits) := by
  have hc1 : ¬(D < Int.tdiv (D * 2) 3 ∧ D < Int.tdiv (D * 2) 3 ∧ D < Int.tdiv (D * 2) 3) := by
    rw [Int.tdiv_eq_ediv (by omega) (by omega)]
    omega
  have hc2 : ¬(D > Int.tdiv (D * 3) 2 ∧ D > Int.tdiv (D * 3) 2 ∧ D > Int.tdiv (D * 3) 2) := by
    rw [Int.tdiv_eq_ediv (by omega) (by omega)]
    omega
  have hc3 : ¬(((D > D ∨ D > D) ∧ D > D ∧ D > D) ∨ ((D < D ∨ D < D) ∧ D < D ∧ D < D)) := by
    omega
  have hmain : GetNextWorkRequiredMidas (some p) params fPos =
      some (GetCompact (decVal p.nBits)) := by
    simp only [GetNextWorkRequiredMidas, hD, havg]
    rw [if_neg hc1, if_neg hc2, if_neg hc3]
    norm_num
  exact ⟨hmain, fun hcan => by rw [hmain, hcan]⟩

set_option maxRecDepth 8000 in
/-- C8 witness: a concrete neutral-factor scenario whose previous packed target
`0x1b010000` is canonical, so the original packed value comes back unchanged. -/
theorem C8_midas_neutral_witness :
    GetNextWorkRequiredMidas (some c8wPrev) c8Params false = some c8wPrev.nBits :=
  (C8_midas_neutral c8wPrev c8Params false 9 (by decide) (by decide) (by decide)).2 (by decide)

/-- C9 counterexample: at `c9Prev`/`c9Params` the two most recent same-type
blocks are 64 seconds apart (exactly the nominal spacing), yet the returned
packed target is `0x03010000`, the re-encoding of the decoded previous target,
not the previous packed target `0x05000001` itself — and a previous target
above the ceiling would likewise come back clamped, so the claim's unqualified
"returns T unchanged" fails on the code. -/
theorem C9_counterexample_reencodes :
    (∃ pp0, (origSameTypeScan c9Params false c9Prev).pprev = some pp0 ∧
      (origSameTypeScan c9Params false c9Prev).GetBlockTime -
        (origSameTypeScan c9Params false pp0).GetBlockTime = 64) ∧
    GetNextWorkRequiredOrig (some c9Prev) c9Params false = some 50397184 ∧
    c9Prev.nBits = 83886081 ∧
    GetNextWorkRequiredOrig (some c9Prev) c9Params false ≠ some c9Prev.nBits := by
  refine ⟨⟨.cons 1 1064 486604799 false (.start 0 1000 486604799 false),
    by decide, by decide⟩, by decide, by decide, by decide⟩

/-- C9 (amended): with retargeting enabled, when the same-type scan finds two
most recent same-type blocks spaced exactly the nominal 64 apart and the
previous target `T` decodes nonzero, at most the track ceiling, with
`T * 704 < 2 ^ 256`, the Legacy Exponential smoothing is the identity: the
function returns the canonical re-encoding of `T`, which is the previous
packed target itself whenever that was canonically encoded. -/
theorem C9_legacy_equilibrium (params : Params) (fPos : Bool) (p pp0 : BlockIndex)
    (hflag : params.fPowNoRetargeting = false)
    (hpp : (origSameTypeScan params fPos p).pprev = some pp0)
    (hsp : (origSameTypeScan params fPos p).GetBlockTime -
      (origSameTypeScan params fPos pp0).GetBlockTime = 64)
    (hT0 : decVal (origSameTypeScan params fPos p).nBits ≠ 0)
    (hTlim : decVal (origSameTypeScan params fPos p).nBits ≤
      (if fPos ∧ params.network = Network.MAIN then origMainPosLimit else params.powLimit))
    (hTmul : decVal (origSameTypeScan params fPos p).nBits * 704 < 2 ^ 256) :
    GetNextWorkRequiredOrig (some p) params fPos =
      some (GetCompact (decVal (origSameTypeScan params fPos p).nBits)) ∧
    (GetCompact (decVal (origSameTypeScan params fPos p).nBits) =
        (origSameTypeScan params fPos p).nBits →
      GetNextWorkRequiredOrig (some p) params fPos =
        some (origSameTypeScan params fPos p).nBits) := by
  have h32 : ((704 : Int) % 2 ^ 32).toNat = 704 := by decide
  have h64 : ((704 : Int) % 2 ^ 64).toNat = 704 := by decide
  have hm : mul32 (decVal (origSameTypeScan params fPos p).nBits) 704 =
      decVal (origSameTypeScan params fPos p).nBits * 704 := by
    unfold mul32
    rw [h32]
    exact Nat.mod_eq_of_lt (by simpa [two256] using hTmul)
  have hd : divU (decVal (origSameTypeScan params fPos p).nBits * 704) 704 =
      decVal (origSameTypeScan params fPos p).nBits := by
    unfold divU
    rw [h64]
    exact Nat.mul_div_cancel _ (by norm_num)
  have hmain : GetNextWorkRequiredOrig (some p) params fPos =
      some (GetCompact (decVal (origSameTypeScan params fPos p).nBits)) := by
    simp only [GetNextWorkRequiredOrig, hflag, Bool.false_eq_true, if_false]
    rw [hpp]
    dsimp only
    rw [hsp]
    simp only [ite_self]
    norm_num
    rw [hm, hd]
    set L := (if fPos = true ∧ params.network = Network.MAIN then origMainPosLimit
      else params.powLimit) with hL
    split_ifs with hcon
    · exfalso
      omega
    · rfl
  exact ⟨hmain, fun hcan => by rw [hmain, hcan]⟩

set_option maxRecDepth 8000 in
/-- C9 witness: a concrete equilibrium chain (spacing exactly 64) whose
canonical previous packed target `0x1b010000` comes back unchanged. -/
theorem C9_legacy_equilibrium_witness :
    GetNextWorkRequiredOrig (some c9wPrev) c9Params false = some c9wPrev.nBits := by
  have h := C9_legacy_equilibrium c9Params false c9wPrev
    (.cons 1 1064 453046272 false (.start 0 1000 453046272 false))
    (by decide) (by decide) (by decide) (by decide) (by decide) (by decide)
  exact h.2 (by decide)

set_option maxRecDepth 8000 in
/-- C5 counterexample: with the no-retargeting flag SET, Midas still retargets:
at `c5Prev`/`c5Params` it returns `0x1d00a997`, not the previous packed target
`0x1d00ffff` — `GetNextWorkRequiredMidas` (like `HybridPoWDarkGravityWave`)
never consults `fPowNoRetargeting`. -/
theorem C5_counterexample_midas_ignores_flag :
    c5Params.fPowNoRetargeting = true ∧
    GetNextWorkRequiredMidas (some c5Prev) c5Params false = some 486644119 ∧
    GetNextWorkRequiredMidas (some c5Prev) c5Params false ≠ some c5Prev.nBits := by
  exact ⟨by decide, by decide, by decide⟩

/-- C5 (amended): with the no-retargeting flag set, Legacy Exponential and
Averaged-Window return the previous block's packed target unchanged, and Hybrid
PoS returns the resolved nearest PoS block's packed target unchanged once that
block is above the hybrid start height; Midas and Hybrid PoW ignore the flag
entirely (their results do not depend on it). -/
theorem C5_no_retargeting_flag (params : Params) (hflag : params.fPowNoRetargeting = true) :
    (∀ (p : BlockIndex) (fPos : Bool),
        GetNextWorkRequiredOrig (some p) params fPos = some p.nBits) ∧
    (∀ (p : BlockIndex) (fPos : Bool),
        GetNextWorkRequiredPivx (some p) params fPos = some p.nBits) ∧
    (∀ (pIn q : BlockIndex),
        (if pIn.isStaking then some pIn
          else GetHybridPrevIndex pIn true params.POSPOWStartHeight) = some q →
        params.POSPOWStartHeight < q.nHeight →
        HybridPoSPIVXDifficulty pIn params = some q.nBits) ∧
    (∀ (popt : Option BlockIndex) (fPos : Bool),
        GetNextWorkRequiredMidas popt params fPos =
          GetNextWorkRequiredMidas popt { params with fPowNoRetargeting := false } fPos) ∧
    (∀ p : BlockIndex,
        HybridPoWDarkGravityWave p params =
          HybridPoWDarkGravityWave p { params with fPowNoRetargeting := false }) := by
  refine ⟨?_, ?_, ?_, ?_, ?_⟩
  · intro p fPos
    simp [GetNextWorkRequiredOrig, hflag]
  · intro p fPos
    simp [GetNextWorkRequiredPivx, hflag]
  · intro pIn q heq hht
    unfold HybridPoSPIVXDifficulty
    dsimp only
    rw [heq]
    dsimp only
    rw [if_neg (by omega), if_pos (by simp [hflag])]
  · intro popt fPos
    rfl
  · intro p
    rfl

/-- C5 witness: under concrete flag-set parameters, Legacy Exponential hands
back the previous packed target unchanged. -/
theorem C5_no_retargeting_flag_witness :
    GetNextWorkRequiredOrig (some c5wPrev) c5wParams false = some c5wPrev.nBits :=
  (C5_no_retargeting_flag c5wParams (by decide)).1 c5wPrev false

/-- A fully clamped value (`≤ 0` and above-ceiling both forced to the ceiling)
re-encodes below the ceiling with a clear negative flag. -/
theorem clampedBound (y L : Nat) (hL : L < 2 ^ 256) :
    decVal (GetCompact (if y ≤ 0 ∨ y > L then L else y)) ≤ L ∧
    negOf (GetCompact (if y ≤ 0 ∨ y > L then L else y)) = false := by
  split_ifs with h
  · exact decVal_GetCompact_bound hL le_rfl
  · push_neg at h
    exact decVal_GetCompact_bound hL h.2

/-- An upper-clamped value re-encodes below the ceiling with a clear negative
flag. -/
theorem upperClampBound (y L : Nat) (hL : L < 2 ^ 256) :
    decVal (GetCompact (if y > L then L else y)) ≤ L ∧
    negOf (GetCompact (if y > L then L else y)) = false := by
  split_ifs with h
  · exact decVal_GetCompact_bound hL le_rfl
  · exact decVal_GetCompact_bound hL (by omega)

section

attribute [local irreducible] GetCompact decVal negOf bits

set_option maxRecDepth 8000 in
theorem ppcoinBranchBound (p : BlockIndex) (L : Nat) (hL : L < 2 ^ 256) :
    ∀ r : Nat, pivxPpcoinBranch p L = some r →
      decVal r ≤ L ∧ negOf r = false := by
  intro r hr
  unfold pivxPpcoinBranch at hr
  repeat' split at hr
  all_goals try (cases hr)
  all_goals repeat' split
  all_goals first
    | exact decVal_GetCompact_bound hL le_rfl
    | exact decVal_GetCompact_bound hL (by omega)

set_option maxRecDepth 8000 in
theorem origDecodedBound (params : Params) (fPos : Bool)
    (hflag : params.fPowNoRetargeting = false)
    (hpow : params.powLimit < 2 ^ 256) :
    ∀ (popt : Option BlockIndex) (r : Nat),
      GetNextWorkRequiredOrig popt params fPos = some r →
      decVal r ≤ (if fPos ∧ params.network = Network.MAIN then origMainPosLimit
        else params.powLimit) ∧ negOf r = false := by
  have hlit : origMainPosLimit < 2 ^ 256 := by norm_num [origMainPosLimit]
  intro popt r hr
  unfold GetNextWorkRequiredOrig at hr
  simp only [hflag, Bool.false_eq_true, if_false] at hr
  split_ifs with hc
  · rw [if_pos hc] at hr
    repeat' split at hr
    all_goals try (cases hr)
    all_goals repeat' split
    all_goals first
      | exact decVal_GetCompact_bound hlit le_rfl
      | exact decVal_GetCompact_bound hlit (by omega)
  · rw [if_neg hc] at hr
    repeat' split at hr
    all_goals try (cases hr)
    all_goals repeat' split
    all_goals first
      | exact decVal_GetCompact_bound hpow le_rfl
      | exact decVal_GetCompact_bound hpow (by omega)

set_option maxRecDepth 8000 in
theorem hybridPoSDecodedBound (params : Params)
    (hflag : params.fPowNoRetargeting = false)
    (hpos : params.posLimit < 2 ^ 256) :
    ∀ (p : BlockIndex) (r : Nat),
      HybridPoSPIVXDifficulty p params = some r →
      decVal r ≤ params.posLimit ∧ negOf r = false := by
  intro p r hr
  unfold HybridPoSPIVXDifficulty at hr
  simp only [hflag, Bool.false_eq_true, if_false] at hr
  repeat' split at hr
  all_goals try (cases hr)
  all_goals repeat' split
  all_goals first
    | exact decVal_GetCompact_bound hpos le_rfl
    | exact decVal_GetCompact_bound hpos (by omega)
    | exact decVal_GetCompact_bound hpos (by
        rename_i hm2
        simp only [hm2] at *
        omega)

set_option maxRecDepth 8000 in
theorem pivxDecodedBound (params : Params) (fPos : Bool)
    (hflag : params.fPowNoRetargeting = false)
    (hpow : params.powLimit < 2 ^ 256) (hpos : params.posLimit < 2 ^ 256) :
    ∀ (popt : Option BlockIndex) (r : Nat),
      GetNextWorkRequiredPivx popt params fPos = some r →
      decVal r ≤ max params.powLimit params.posLimit ∧ negOf r = false := by
  intro popt r hr
  unfold GetNextWorkRequiredPivx at hr
  simp only [hflag, Bool.false_eq_true, if_false] at hr
  repeat' split at hr
  all_goals try (cases hr)
  all_goals try (exact ⟨le_trans (ppcoinBranchBound _ _ hpos r hr).1 (le_max_right _ _),
    (ppcoinBranchBound _ _ hpos r hr).2⟩)
  all_goals try (exact ⟨le_trans (ppcoinBranchBound _ _ hpow r hr).1 (le_max_left _ _),
    (ppcoinBranchBound _ _ hpow r hr).2⟩)
  all_goals repeat' split
  all_goals first
    | exact ⟨le_trans (decVal_GetCompact_bound hpow le_rfl).1 (le_max_left _ _),
        (decVal_GetCompact_bound hpow le_rfl).2⟩
    | exact ⟨le_trans (decVal_GetCompact_bound hpos le_rfl).1 (le_max_right _ _),
        (decVal_GetCompact_bound hpos le_rfl).2⟩
    | exact ⟨le_trans (decVal_GetCompact_bound hpow (by omega)).1 (le_max_left _ _),
        (decVal_GetCompact_bound hpow (by omega)).2⟩
    | exact ⟨le_trans (decVal_GetCompact_bound hpos (by omega)).1 (le_max_right _ _),
        (decVal_GetCompact_bound hpos (by omega)).2⟩

set_option maxRecDepth 8000 in
theorem midasDecodedBound (params : Params) (fPos : Bool)
    (hpow : params.powLimit < 2 ^ 256) (hpos : params.posLimit < 2 ^ 256) :
    ∀ (popt : Option BlockIndex) (r : Nat),
      (∀ p, popt = some p →
        decVal p.nBits ≤ (if fPos then params.posLimit else params.powLimit)) →
      GetNextWorkRequiredMidas popt params fPos = some r →
      decVal r ≤ (if fPos then params.posLimit else params.powLimit) ∧
        negOf r = false := by
  intro popt r hprev hr
  unfold GetNextWorkRequiredMidas at hr
  cases fPos with
  | false =>
    simp only [Bool.false_eq_true, if_false] at hprev hr ⊢
    rcases popt with _ | p
    · dsimp only at hr
      obtain rfl := Option.some.inj hr
      exact decVal_GetCompact_bound hpow le_rfl
    · have hp := hprev p rfl
      dsimp only at hr
      repeat' split at hr
      all_goals try (cases hr)
      all_goals try (obtain rfl := Option.some.inj hr)
      all_goals repeat' split
      all_goals first
        | exact decVal_GetCompact_bound hpow le_rfl
        | exact decVal_GetCompact_bound hpow hp
        | (refine decVal_GetCompact_bound hpow ?_; omega)
  | true =>
    simp only [eq_self_iff_true, if_true] at hprev hr ⊢
    rcases popt with _ | p
    · dsimp only at hr
      obtain rfl := Option.some.inj hr
      exact decVal_GetCompact_bound hpos le_rfl
    · have hp := hprev p rfl
      dsimp only at hr
      repeat' split at hr
      all_goals try (cases hr)
      all_goals try (obtain rfl := Option.some.inj hr)
      all_goals repeat' split
      all_goals first
        | exact decVal_GetCompact_bound hpos le_rfl
        | exact decVal_GetCompact_bound hpos hp
        | (refine decVal_GetCompact_bound hpos ?_; omega)

set_option maxRecDepth 8000 in
theorem hybridPoWDecodedBound (params : Params)
    (hhyb : params.hybridPowLimit < 2 ^ 256) :
    ∀ (p : BlockIndex) (r : Nat),
      HybridPoWDarkGravityWave p params = some r →
      decVal r ≤ params.hybridPowLimit ∧ negOf r = false := by
  intro p r hr
  unfold HybridPoWDarkGravityWave hybridPoWWindow at hr
  dsimp only at hr
  repeat' split at hr
  all_goals try (cases hr)
  all_goals try (obtain rfl := Option.some.inj hr)
  all_goals repeat' split
  all_goals first
    | exact decVal_GetCompact_bound hhyb le_rfl
    | (refine decVal_GetCompact_bound hhyb ?_; omega)
    | (refine decVal_GetCompact_bound hhyb ?_
       rename_i hm2
       simp only [hm2] at *
       omega)

end

set_option maxRecDepth 8000 in
/-- C4 counterexample: a retarget function can return a packed target that
decodes to zero — with a previous packed target of 0, the Midas rescale path
divides zero and returns a target decoding to 0 (the claim's "never zero or
negative" fails; zero also escapes the averaged-window paths, and the Midas
no-op path can exceed the ceiling when the previous target does). -/
theorem C4_counterexample_zero_target :
    GetNextWorkRequiredMidas (some c4Prev) c4Params false = some 0 ∧
    decVal 0 = 0 := by
  exact ⟨by decide, by decide⟩

/-- C4 (amended): with retargeting enabled and positive-width ceilings below
`2 ^ 256`, every value a retarget function returns decodes to at most the
ceiling of the branch that produced it and never sets the negative flag:
Legacy Exponential is bounded by its track ceiling (the literal mainnet PoS
ceiling on the main PoS track, the PoW ceiling otherwise); Averaged-Window by
the larger of the PoW and PoS ceilings (its insufficient-history and testnet
branches cross tracks); Midas by its track ceiling provided the previous
block's target already respects it (the no-op path re-encodes it unclamped);
Hybrid PoW by the hybrid PoW ceiling; Hybrid PoS by the PoS ceiling.
Decoded results CAN be zero, so that part of the claim is dropped. -/
theorem C4_decoded_bounds (params : Params)
    (hflag : params.fPowNoRetargeting = false)
    (hpow : params.powLimit < 2 ^ 256) (hpos : params.posLimit < 2 ^ 256)
    (hhyb : params.hybridPowLimit < 2 ^ 256) :
    (∀ (fPos : Bool) (popt : Option BlockIndex) (r : Nat),
        GetNextWorkRequiredOrig popt params fPos = some r →
        decVal r ≤ (if fPos ∧ params.network = Network.MAIN then origMainPosLimit
          else params.powLimit) ∧ negOf r = false) ∧
    (∀ (fPos : Bool) (popt : Option BlockIndex) (r : Nat),
        GetNextWorkRequiredPivx popt params fPos = some r →
        decVal r ≤ max params.powLimit params.posLimit ∧ negOf r = false) ∧
    (∀ (fPos : Bool) (popt : Option BlockIndex) (r : Nat),
        (∀ p, popt = some p →
          decVal p.nBits ≤ (if fPos then params.posLimit else params.powLimit)) →
        GetNextWorkRequiredMidas popt params fPos = some r →
        decVal r ≤ (if fPos then params.posLimit else params.powLimit) ∧
          negOf r = false) ∧
    (∀ (p : BlockIndex) (r : Nat),
        HybridPoWDarkGravityWave p params = some r →
        decVal r ≤ params.hybridPowLimit ∧ negOf r = false) ∧
    (∀ (p : BlockIndex) (r : Nat),
        HybridPoSPIVXDifficulty p params = some r →
        decVal r ≤ params.posLimit ∧ negOf r = false) :=
  ⟨fun fPos => origDecodedBound params fPos hflag hpow,
   fun fPos => pivxDecodedBound params fPos hflag hpow hpos,
   fun fPos => midasDecodedBound params fPos hpow hpos,
   hybridPoWDecodedBound params hhyb,
   hybridPoSDecodedBound params hflag hpos⟩

set_option maxRecDepth 8000 in
/-- C4 witness: at concrete parameters the Hybrid PoW function on a short
chain returns `0x1f200000`, which decodes below the hybrid ceiling with a
clear negative flag. -/
theorem C4_decoded_bounds_witness :
    decVal 522190848 ≤ c4wParams.hybridPowLimit ∧ negOf 522190848 = false :=
  (C4_decoded_bounds c4wParams (by decide) (by decide) (by decide)
    (by decide)).2.2.2.1 c4wPrev 522190848 (by decide)
